import Mathlib

/-!
Formal model of the EYEHacka vision-screening application.

The repository is a browser client that records short face videos or
flash-lit photographs, uploads them to a remote analysis service, and
displays a risk classification.  This file embeds, as executable Lean
definitions:

* the data model of analysis results (`AnalysisData` and friends),
  translated from the TypeScript interfaces in
  `src/app/hooks/videorec.tsx`;
* the client upload flow `analyzeVideoWithAPI` of
  `src/app/hooks/videorec.tsx`, as a pure function of the network
  outcome;
* the `POST` handler of `src/app/api/flashlight-test/route.ts`, as a
  pure function of the request, the upstream outcome, and the values
  drawn by the two calls to `Math.random()`;
* the hard-coded fallback/demo analysis results found in the sources;
* the server-side Eye Displacement Analysis Engine.  The engine itself
  is not part of the repository sources (only its Flask start scripts
  and its callers are), so it is modelled from the specification:
  frame sampler, per-frame eye locator interface, displacement signal
  builder with rolling median baseline, hysteresis event detector, and
  risk aggregator.

Theorems at the end of the file settle the specification claims about
this code.
-/

namespace EyeHacka

/-- 2D point with integer pixel coordinates, the form in which the
external face/eye locator reports eye centers. -/
structure Point where
  x : Int
  y : Int
deriving DecidableEq

/-- Video container metadata, from the `video_info` interface of
`src/app/hooks/videorec.tsx`. -/
structure VideoInfo where
  duration : ℚ
  fps : ℚ
  total_frames : ℕ
deriving DecidableEq

/-- One detection event, from the `detection_events` entry interface of
`src/app/hooks/videorec.tsx`. -/
structure DetectionEvent where
  timestamp : ℚ
  left_displacement : ℚ
  right_displacement : ℚ
  message : String
deriving DecidableEq

/-- Risk classification levels, from the `risk_assessment.level` union
type of `src/app/hooks/videorec.tsx`. -/
inductive RiskLevel where
  | LOW
  | MEDIUM
  | HIGH
deriving DecidableEq

/-- The `analysis` block of an analysis result, from the interface in
`src/app/hooks/videorec.tsx`. -/
structure AnalysisCounts where
  frames_analyzed : ℕ
  frames_with_face : ℕ
  face_detection_rate : ℚ
  lazy_eye_detections : ℕ
  detection_events : List DetectionEvent
deriving DecidableEq

/-- The `risk_assessment` block, from the interface in
`src/app/hooks/videorec.tsx`. -/
structure RiskAssessment where
  level : RiskLevel
  confidence : String
  recommendation : String
deriving DecidableEq

/-- A full analysis result (`AnalysisData` in
`src/app/hooks/videorec.tsx`). -/
structure AnalysisData where
  video_info : VideoInfo
  analysis : AnalysisCounts
  risk_assessment : RiskAssessment
deriving DecidableEq

/-! ### Hard-coded analysis results in the client sources -/

/-- The fabricated fallback result of `analyzeVideoWithAPI` in
`src/app/hooks/videorec.tsx` (lines 455-473), shown whenever the
upload or the analysis fails.  The recommendation text interpolates
the error message, as in the source. -/
def fallbackResults (errorMessage : String) : AnalysisData :=
  { video_info := { duration := 20, fps := 30, total_frames := 600 }
    analysis :=
      { frames_analyzed := 600
        frames_with_face := 570
        face_detection_rate := 95
        lazy_eye_detections := 0
        detection_events := [] }
    risk_assessment :=
      { level := RiskLevel.LOW
        confidence := "Demo Mode - Server Issue"
        recommendation := errorMessage ++ " Showing demo results for now." } }

/-- The fallback result of the first `useVideoRecording` hook in
`src/unnamed/part_007` (lines 275-293). -/
def fallbackResults_p7a : AnalysisData :=
  { video_info := { duration := 30, fps := 30, total_frames := 900 }
    analysis :=
      { frames_analyzed := 900
        frames_with_face := 850
        face_detection_rate := 944/10
        lazy_eye_detections := 0
        detection_events := [] }
    risk_assessment :=
      { level := RiskLevel.LOW
        confidence := "High"
        recommendation := "No issues detected - API connection failed, showing demo results" } }

/-- The fallback result of the second `useVideoRecording` hook in
`src/unnamed/part_007` (lines 679-697). -/
def fallbackResults_p7b : AnalysisData :=
  { video_info := { duration := 20, fps := 30, total_frames := 600 }
    analysis :=
      { frames_analyzed := 600
        frames_with_face := 570
        face_detection_rate := 95
        lazy_eye_detections := 0
        detection_events := [] }
    risk_assessment :=
      { level := RiskLevel.LOW
        confidence := "High"
        recommendation := "No issues detected (fallback - API unavailable)" } }

/-- The simulated result of the mock hook in `src/unnamed/part_006`
(lines 38-58). -/
def mockResults_p6 : AnalysisData :=
  { video_info := { duration := 20, fps := 30, total_frames := 600 }
    analysis :=
      { frames_analyzed := 580
        frames_with_face := 520
        face_detection_rate := 897/10
        lazy_eye_detections := 0
        detection_events := [] }
    risk_assessment :=
      { level := RiskLevel.LOW
        confidence := "85%"
        recommendation := "No signs of lazy eye detected. Regular check-ups recommended." } }

/-! ### Client upload flow (`src/app/hooks/videorec.tsx`) -/

/-- Matching of a lead of a character list against a pattern
(helper for the substring test the client performs on error
messages). -/
def leadMatch : List Char → List Char → Bool
  | [], _ => true
  | _ :: _, [] => false
  | a :: as, b :: bs => a == b && leadMatch as bs

/-- Substring test on character lists (helper for the
`error.message.includes` checks in `src/app/hooks/videorec.tsx`). -/
def hasSub (needle : List Char) : List Char → Bool
  | [] => needle.isEmpty
  | b :: bs => leadMatch needle (b :: bs) || hasSub needle bs

/-- Model of `string.includes(needle)` from the client source. -/
def strIncludes (hay needle : String) : Bool :=
  hasSub needle.toList hay.toList

/-- The possible outcomes of one call to `analyzeVideoWithAPI` in
`src/app/hooks/videorec.tsx`: the health check fails, the fetch is
aborted by the 5-minute timeout, the response status is outside 2xx,
the body reports `success = false`, the fetch rejects with a network
error, or the analysis succeeds. -/
inductive UploadOutcome where
  | healthCheckFailed
  | aborted
  | httpStatus (status : ℕ)
  | apiReportedFailure (msg : String)
  | networkFailure
  | ok (analysis : AnalysisData)
deriving DecidableEq

/-- Whether the outcome takes the catch branch of
`analyzeVideoWithAPI`. -/
def isFailureOutcome : UploadOutcome → Bool
  | UploadOutcome.ok _ => false
  | _ => true

/-- The error message chosen by the catch branch of
`analyzeVideoWithAPI` in `src/app/hooks/videorec.tsx` (lines 429-450):
AbortError, API_UNAVAILABLE, SERVER_BUSY (thrown for status 503),
SERVER_ERROR (status 500+), messages mentioning network or fetch, and
the generic default. -/
def errorMessageFor : UploadOutcome → String
  | UploadOutcome.aborted => "Analysis timed out. Server may be busy - please try again."
  | UploadOutcome.healthCheckFailed => "Server unavailable. Please try again in a few minutes."
  | UploadOutcome.httpStatus s =>
      if s = 503 then "Server is busy. Please wait 1-2 minutes and try again."
      else if 500 ≤ s then "Server error occurred. Please try again."
      else "Analysis failed. Please try again."
  | UploadOutcome.apiReportedFailure m =>
      if strIncludes m ("network") || strIncludes m ("fetch") then
        "Network issue. Check your connection and try again."
      else "Analysis failed. Please try again."
  | UploadOutcome.networkFailure => "Network issue. Check your connection and try again."
  | UploadOutcome.ok _ => ""

/-- The pieces of React state that `analyzeVideoWithAPI` leaves behind
for the UI: the displayed results and the error banner. -/
structure ClientAnalysisState where
  analysisResults : Option AnalysisData
  analysisError : Option String
deriving DecidableEq

/-- Model of `analyzeVideoWithAPI` from `src/app/hooks/videorec.tsx`
(lines 335-481) as a function of the network outcome: on success the
response analysis is stored; on any failure the error message is
stored and the fabricated `fallbackResults` are stored as the
displayed results. -/
def analyzeVideoWithAPI : UploadOutcome → ClientAnalysisState
  | UploadOutcome.ok a => { analysisResults := some a, analysisError := none }
  | o =>
      { analysisResults := some (fallbackResults (errorMessageFor o))
        analysisError := some (errorMessageFor o) }

/-- Model of `getApiUrl` from `src/app/hooks/videorec.tsx`
(lines 65-67): it ignores the environment entirely. -/
def getApiUrl : String := "https://eyehacka.onrender.com"

/-- Model of `getApiUrl` from the second hook of
`src/unnamed/part_007` (lines 372-379): it branches on whether a
window object exists and on the hostname, but both branches return the
same literal. -/
def getApiUrl_p7 (hasWindow : Bool) (hostname : String) : String :=
  if hasWindow && !(hostname == "localhost") then "https://eyehacka.onrender.com"
  else "https://eyehacka.onrender.com"

/-- The URL the client posts recorded videos to
(`src/app/hooks/videorec.tsx` line 388). -/
def uploadUrl : String := getApiUrl ++ "/upload"

/-! ### Flash-reflex endpoint (`src/app/api/flashlight-test/route.ts`) -/

/-- Outcome of the proxied call to the external `/detect` endpoint:
either it answered with a leukocoria verdict, or the call threw
(network error or non-2xx status, both of which raise in the source). -/
inductive UpstreamOutcome where
  | ok (leukocoria : Bool)
  | failed
deriving DecidableEq

/-- The response bodies the flash route can produce.  `analysis`
carries the fields `success`, `result`, `leukocoria`, `message`,
`confidence` and the demo-mode marker `fallback` (absent, hence
`false`, on the genuine path); the constant `timestamp` and
`algorithm` metadata fields of the source are elided.  `noPhoto` is
the 400 response `error: No photo provided`, and `serverError` the 500
response of the outer catch. -/
inductive FlashRouteResponse where
  | noPhoto
  | analysis (success result leukocoria : Bool) (message : String)
      (confidence : ℚ) (fallbackFlag : Bool)
  | serverError
deriving DecidableEq

/-- Model of the `POST` handler in
`src/app/api/flashlight-test/route.ts` as a function of: whether the
form data parses, whether a photo field is present, the upstream
outcome, and the two values drawn by `Math.random()` in the fallback
branch (`rand1` for the 80% normal draw, `rand2` for the confidence
draw). -/
def flashlightPOST (parseOk photoProvided : Bool) (upstream : UpstreamOutcome)
    (rand1 rand2 : ℚ) : FlashRouteResponse :=
  if !parseOk then FlashRouteResponse.serverError
  else if !photoProvided then FlashRouteResponse.noPhoto
  else
    match upstream with
    | UpstreamOutcome.ok leuko =>
        FlashRouteResponse.analysis true (!leuko) leuko
          (if leuko then
            "Leukocoria detected - white/yellow pupil reflex found. Recommend immediate professional evaluation."
          else "Normal pupil reflex - no leukocoria detected.")
          (85/100) false
    | UpstreamOutcome.failed =>
        let isNormal : Bool := decide (1/5 < rand1)
        FlashRouteResponse.analysis true isNormal (!isNormal)
          (if isNormal then "Normal pupil reflex - no leukocoria detected (demo mode)"
          else "Leukocoria detected - recommend professional evaluation (demo mode)")
          (rand2 * (3/10) + 3/5) true

/-! ### Eye Displacement Analysis Engine (modelled from the spec)

The engine behind the `/upload` endpoint is not part of the repository
sources: `src/` only contains its Flask start scripts, its README, and
its client callers.  The definitions below are therefore modelled from
the specification, component by component. -/

/-- Per-frame observation of the eye locator, data model section of
the spec.  Modelled from the spec: the real producer lives in the
absent Flask engine. -/
structure FrameObservation where
  index : ℕ
  timestamp : ℚ
  face_found : Bool
  left_eye : Option Point
  right_eye : Option Point
deriving DecidableEq

/-- One displacement sample, derived from a face-found frame.
Modelled from the spec. -/
structure DispSample where
  timestamp : ℚ
  left_displacement : ℚ
  right_displacement : ℚ
deriving DecidableEq

/-- The left/right asymmetry of a displacement sample, the signal the
event detector thresholds. -/
def asym (s : DispSample) : ℚ := |s.left_displacement - s.right_displacement|

/-- Engine configuration: frame cap, rolling-baseline window, the
hysteresis thresholds and sustain/release counts of the event
detector, the minimum face-detection coverage, and the event-count
escalation threshold of the risk aggregator.  Modelled from the spec,
with the example values of the spec as `defaultCfg` below. -/
structure EngineConfig where
  max_frames : ℕ
  baseline_window : ℕ
  t_enter : ℚ
  t_exit : ℚ
  min_sustain : ℕ
  min_release : ℕ
  min_coverage : ℚ
  escalation : ℕ
deriving DecidableEq

/-- The example configuration values named in the spec (`max_frames`
900, baseline window 15, `T_enter` 25px, `T_exit` below `T_enter`,
`min_sustain` 3, minimum coverage 50%). -/
def defaultCfg : EngineConfig :=
  { max_frames := 900
    baseline_window := 15
    t_enter := 25
    t_exit := 15
    min_sustain := 3
    min_release := 3
    min_coverage := 50
    escalation := 3 }

/-- Frame sampler stride: analyze at the native rate unless the frame
count exceeds the cap, in which case downsample evenly.  Modelled from
the spec. -/
def sampleStride (maxFrames total : ℕ) : ℕ :=
  if total ≤ maxFrames then 1 else (total + maxFrames - 1) / maxFrames

/-- Every `k`-th element of a list, starting with the first.  Modelled
from the spec (evenly-spaced frame extraction). -/
def stride (k : ℕ) : List α → List α
  | [] => []
  | a :: l => a :: stride k (l.drop (k - 1))
termination_by l => l.length
decreasing_by simp [List.length_drop]; omega

/-- One frame observation: the locator capability either finds a face
with both eye centers, or finds no face (a normal outcome, not an
error).  The timestamp of the `j`-th sampled frame is its original
frame index `j * k` over the frame rate.  Modelled from the spec. -/
def obsOf (fps : ℚ) (k : ℕ) (locate : α → Option (Point × Point)) (j : ℕ)
    (f : α) : FrameObservation :=
  match locate f with
  | some (lp, rp) =>
      { index := j, timestamp := ((j * k : ℕ) : ℚ) / fps, face_found := true
        left_eye := some lp, right_eye := some rp }
  | none =>
      { index := j, timestamp := ((j * k : ℕ) : ℚ) / fps, face_found := false
        left_eye := none, right_eye := none }

/-- The ordered observation sequence for the sampled frames, indexed
from `j`.  Modelled from the spec. -/
def mkObsAux (fps : ℚ) (k : ℕ) (locate : α → Option (Point × Point)) :
    ℕ → List α → List FrameObservation
  | _, [] => []
  | j, f :: fs => obsOf fps k locate j f :: mkObsAux fps k locate (j + 1) fs

/-- Median of a list of integers: middle element of the sorted list
(0 on an empty list).  Modelled from the spec (rolling baseline =
median over the trailing window). -/
def medianZ (l : List Int) : Int :=
  (l.insertionSort (· ≤ ·)).getD (l.length / 2) 0

/-- Axis-wise L1 distance of a point from the per-axis medians of a
window of points.  The spec allows an axis-specific distance in place
of the Euclidean one; the L1 form keeps the model in exact
arithmetic. -/
def dispFrom (p : Point) (window : List Point) : ℚ :=
  ((|p.x - medianZ (window.map Point.x)| + |p.y - medianZ (window.map Point.y)| : Int) : ℚ)

/-- Displacement signal builder: walks the observations in order,
skips frames without a face, keeps the trailing `N` face-found
positions of each eye (most recent first, all available ones during
warm-up) and emits one displacement sample per face-found frame.
Modelled from the spec. -/
def buildDispAux (N : ℕ) : List Point × List Point → List FrameObservation →
    List DispSample
  | _, [] => []
  | (lh, rh), o :: os =>
    match o.left_eye, o.right_eye with
    | some lp, some rp =>
        let lh2 := (lp :: lh).take N
        let rh2 := (rp :: rh).take N
        { timestamp := o.timestamp
          left_displacement := dispFrom lp lh2
          right_displacement := dispFrom rp rh2 } :: buildDispAux N (lh2, rh2) os
    | _, _ => buildDispAux N (lh, rh) os

/-- Event detector state: either idle, remembering the current
consecutive run of samples whose asymmetry exceeds `T_enter`, or
inside an event, remembering the entering sample, the sample of peak
asymmetry so far, and the count of consecutive below-`T_exit`
samples.  Modelled from the spec. -/
inductive DetState where
  | idle (run : List DispSample)
  | inEvent (start peak : DispSample) (release : ℕ)

/-- Human-readable event description naming the larger displacement,
from the message templating the spec asks for. -/
def eventMessage (peak : DispSample) : String :=
  if peak.right_displacement ≤ peak.left_displacement then
    "Left eye displacement exceeds right eye displacement"
  else "Right eye displacement exceeds left eye displacement"

/-- A detection event assembled from the entering sample (timestamp)
and the peak-asymmetry sample (displacements).  Modelled from the
spec. -/
def mkEvent (start peak : DispSample) : DetectionEvent :=
  { timestamp := start.timestamp
    left_displacement := peak.left_displacement
    right_displacement := peak.right_displacement
    message := eventMessage peak }

/-- The sample of maximal asymmetry in a list, seeded with a default.
Used for the peak at event entry. -/
def peakSample (l : List DispSample) (dflt : DispSample) : DispSample :=
  l.foldl (fun p q => if asym p < asym q then q else p) dflt

/-- The hysteresis event detector of the spec, as a step function over
the displacement stream.  Idle moves to InEvent once `min_sustain`
consecutive samples exceed `T_enter`; InEvent returns to Idle (and
emits the event) after `min_release` consecutive samples below
`T_exit`; an event still open at the end of the stream is emitted with
its peak-so-far values.  Modelled from the spec. -/
def detectAux (cfg : EngineConfig) : DetState → List DispSample → List DetectionEvent
  | DetState.idle _, [] => []
  | DetState.inEvent start peak _, [] => [mkEvent start peak]
  | DetState.idle run, s :: l =>
      if cfg.t_enter < asym s then
        let streak := run ++ [s]
        if cfg.min_sustain ≤ streak.length then
          detectAux cfg (DetState.inEvent (streak.headD s) (peakSample streak s) 0) l
        else detectAux cfg (DetState.idle streak) l
      else detectAux cfg (DetState.idle []) l
  | DetState.inEvent start peak rel, s :: l =>
      let peak2 := if asym peak < asym s then s else peak
      if asym s < cfg.t_exit then
        if cfg.min_release ≤ rel + 1 then
          mkEvent start peak2 :: detectAux cfg (DetState.idle []) l
        else detectAux cfg (DetState.inEvent start peak2 (rel + 1)) l
      else detectAux cfg (DetState.inEvent start peak2 0) l

/-- The detection events of a displacement stream.  Modelled from the
spec. -/
def detect (cfg : EngineConfig) (samples : List DispSample) : List DetectionEvent :=
  detectAux cfg (DetState.idle []) samples

/-- Risk aggregator: a pure function of the events and the coverage
rate (given as a percentage).  Below minimum coverage the risk is LOW
with an insufficient-data note; with no events the risk is LOW with
recommendation `no issues detected.`; below the escalation threshold
MEDIUM; otherwise HIGH with a consult recommendation.  Modelled from
the spec. -/
def riskAggregator (cfg : EngineConfig) (events : List DetectionEvent)
    (rate : ℚ) : RiskAssessment :=
  if rate < cfg.min_coverage then
    { level := RiskLevel.LOW
      confidence := "low"
      recommendation := "insufficient data - video quality too poor for assessment" }
  else if events.length = 0 then
    { level := RiskLevel.LOW
      confidence := "high"
      recommendation := "no issues detected." }
  else if events.length < cfg.escalation then
    { level := RiskLevel.MEDIUM
      confidence := "medium"
      recommendation := "possible asymmetry detected - monitor and retest" }
  else
    { level := RiskLevel.HIGH
      confidence := "high"
      recommendation := "consult a professional." }

/-- The sampled frames of a video.  Modelled from the spec. -/
def sampledOf (cfg : EngineConfig) (frames : List α) : List α :=
  stride (sampleStride cfg.max_frames frames.length) frames

/-- The observation sequence of a video.  Modelled from the spec. -/
def obsOfVideo (cfg : EngineConfig) (locate : α → Option (Point × Point))
    (fps : ℚ) (frames : List α) : List FrameObservation :=
  mkObsAux fps (sampleStride cfg.max_frames frames.length) locate 0
    (sampledOf cfg frames)

/-- The displacement stream of a video.  Modelled from the spec. -/
def samplesOfVideo (cfg : EngineConfig) (locate : α → Option (Point × Point))
    (fps : ℚ) (frames : List α) : List DispSample :=
  buildDispAux cfg.baseline_window ([], []) (obsOfVideo cfg locate fps frames)

/-- The detection events of a video.  Modelled from the spec. -/
def eventsOfVideo (cfg : EngineConfig) (locate : α → Option (Point × Point))
    (fps : ℚ) (frames : List α) : List DetectionEvent :=
  detect cfg (samplesOfVideo cfg locate fps frames)

/-- The full analysis pipeline behind `/upload`: sampler, locator,
displacement builder, event detector, risk aggregator, assembled into
the response object of the client interface.  Modelled from the spec.
The face-detection rate is the percentage of analyzed frames with a
face found. -/
def analyzeVideo (cfg : EngineConfig) (locate : α → Option (Point × Point))
    (fps duration : ℚ) (frames : List α) : AnalysisData :=
  let obs := obsOfVideo cfg locate fps frames
  let events := eventsOfVideo cfg locate fps frames
  let analyzed := obs.length
  let withFace := obs.countP (·.face_found)
  let rate := 100 * (withFace : ℚ) / (analyzed : ℚ)
  { video_info := { duration := duration, fps := fps, total_frames := frames.length }
    analysis :=
      { frames_analyzed := analyzed
        frames_with_face := withFace
        face_detection_rate := rate
        lazy_eye_detections := events.length
        detection_events := events }
    risk_assessment := riskAggregator cfg events rate }

/-! ### Rounding helper -/

/-- Rounding to one decimal place, half up, as the percentages in the
hard-coded client results are rounded. -/
def round1 (x : ℚ) : ℚ := ((⌊10 * x + 1/2⌋ : Int) : ℚ) / 10

/-! ### Specification predicates and concrete test inputs -/

/-- The stream contains `min_sustain` consecutive samples whose
asymmetry strictly exceeds the entry threshold. -/
def HasStreak (cfg : EngineConfig) (l : List DispSample) : Prop :=
  ∃ pre streak post : List DispSample,
    l = pre ++ streak ++ post ∧ streak.length = cfg.min_sustain ∧
    ∀ s ∈ streak, cfg.t_enter < asym s

/-- Boundary stream of the spec: asymmetry exactly at `T_enter = 25`
for only 2 consecutive samples. -/
def jitterStream : List DispSample :=
  [{ timestamp := 0, left_displacement := 25, right_displacement := 0 },
   { timestamp := 1/30, left_displacement := 25, right_displacement := 0 }]

/-- Locator for the spec scenario with 600 sampled frames of which 570
have a face found: every 20th frame has no face, all eye positions are
constant (hence zero sustained asymmetry). -/
def scenarioLocate (n : ℕ) : Option (Point × Point) :=
  if n % 20 = 0 then none else some (⟨10, 20⟩, ⟨40, 20⟩)

/-- The 600 frames of the scenario, identified by index. -/
def scenarioFrames : List ℕ := List.range 600

/-- The engine result on the scenario video (20 seconds at 30 fps). -/
def scenarioResult : AnalysisData :=
  analyzeVideo defaultCfg scenarioLocate 30 20 scenarioFrames

/-! ### Basic lemmas about the engine components -/

theorem stride_length_le (k : ℕ) (l : List α) : (stride k l).length ≤ l.length := by
  induction l using stride.induct k with
  | case1 => simp [stride]
  | case2 a t ih =>
      rw [stride]
      simp only [List.length_cons, Nat.succ_le_succ_iff]
      exact le_trans ih (by simp [List.length_drop])

theorem stride_one (l : List α) : stride 1 l = l := by
  induction l with
  | nil => simp [stride]
  | cons a t ih => rw [stride]; simp [ih]

theorem obsOf_face_found (fps : ℚ) (k : ℕ) (locate : α → Option (Point × Point))
    (j : ℕ) (f : α) : (obsOf fps k locate j f).face_found = (locate f).isSome := by
  rcases h : locate f with _ | ⟨lp, rp⟩ <;> simp [obsOf, h]

theorem obsOf_timestamp (fps : ℚ) (k : ℕ) (locate : α → Option (Point × Point))
    (j : ℕ) (f : α) : (obsOf fps k locate j f).timestamp = ((j * k : ℕ) : ℚ) / fps := by
  rcases h : locate f with _ | ⟨lp, rp⟩ <;> simp [obsOf, h]

theorem length_mkObsAux (fps : ℚ) (k : ℕ) (locate : α → Option (Point × Point)) :
    ∀ (fs : List α) (j : ℕ), (mkObsAux fps k locate j fs).length = fs.length := by
  intro fs
  induction fs with
  | nil => intro j; simp [mkObsAux]
  | cons f fs ih => intro j; simp [mkObsAux, ih]

theorem countP_mkObsAux (fps : ℚ) (k : ℕ) (locate : α → Option (Point × Point)) :
    ∀ (fs : List α) (j : ℕ),
      (mkObsAux fps k locate j fs).countP (·.face_found) =
        fs.countP (fun f => (locate f).isSome) := by
  intro fs
  induction fs with
  | nil => intro j; simp [mkObsAux]
  | cons f fs ih =>
      intro j
      simp only [mkObsAux, List.countP_cons, ih, obsOf_face_found]

theorem mkObsAux_mem (fps : ℚ) (k : ℕ) (locate : α → Option (Point × Point)) :
    ∀ (fs : List α) (j : ℕ) (o : FrameObservation), o ∈ mkObsAux fps k locate j fs →
      ∃ j2 f, f ∈ fs ∧ o = obsOf fps k locate j2 f := by
  intro fs
  induction fs with
  | nil => intro j o ho; simp [mkObsAux] at ho
  | cons f fs ih =>
      intro j o ho
      rw [mkObsAux] at ho
      rcases List.mem_cons.mp ho with rfl | ho2
      · exact ⟨j, f, List.mem_cons_self f fs, rfl⟩
      · obtain ⟨j2, f2, hf2, he⟩ := ih (j + 1) o ho2
        exact ⟨j2, f2, List.mem_cons_of_mem f hf2, he⟩

/-- If no sample ever strictly exceeds the entry threshold, the
detector never leaves the empty idle state and emits nothing. -/
theorem detectAux_idle_nil_of_le (cfg : EngineConfig) :
    ∀ (l : List DispSample), (∀ s ∈ l, asym s ≤ cfg.t_enter) →
      detectAux cfg (DetState.idle []) l = [] := by
  intro l
  induction l with
  | nil => intro _; rfl
  | cons s t ih =>
      intro h
      have hs : ¬ cfg.t_enter < asym s := not_lt.mpr (h s (List.mem_cons_self s t))
      rw [detectAux, if_neg hs]
      exact ih (fun x hx => h x (List.mem_cons_of_mem s hx))

theorem detect_nil_of_le (cfg : EngineConfig) (samples : List DispSample)
    (h : ∀ s ∈ samples, asym s ≤ cfg.t_enter) : detect cfg samples = [] :=
  detectAux_idle_nil_of_le cfg samples h

/-- The median of a nonempty list whose elements are all equal to `c`
is `c`. -/
theorem medianZ_const (l : List Int) (c : Int) (hne : l ≠ [])
    (hc : ∀ x ∈ l, x = c) : medianZ l = c := by
  unfold medianZ
  have hperm := List.perm_insertionSort (· ≤ ·) l
  have hlen : (l.insertionSort (· ≤ ·)).length = l.length :=
    List.length_insertionSort _ l
  have hlt : l.length / 2 < (l.insertionSort (· ≤ ·)).length := by
    rw [hlen]
    exact Nat.div_lt_self (List.length_pos.mpr hne) one_lt_two
  rw [List.getD_eq_getElem _ _ hlt]
  exact hc _ (hperm.mem_iff.mp (List.getElem_mem hlt))

/-- The displacement of a point from a window consisting only of
copies of the point itself is zero. -/
theorem dispFrom_const_window (p : Point) (w : List Point) (hne : w ≠ [])
    (hw : ∀ q ∈ w, q = p) : dispFrom p w = 0 := by
  unfold dispFrom
  have hx : medianZ (w.map Point.x) = p.x := by
    apply medianZ_const _ _ (by simpa using hne)
    intro x hx
    rcases List.mem_map.mp hx with ⟨q, hq, rfl⟩
    rw [hw q hq]
  have hy : medianZ (w.map Point.y) = p.y := by
    apply medianZ_const _ _ (by simpa using hne)
    intro y hy
    rcases List.mem_map.mp hy with ⟨q, hq, rfl⟩
    rw [hw q hq]
  rw [hx, hy]
  simp

/-- When every observed eye position is constant, all displacement
samples are zero. -/
theorem buildDispAux_const (N : ℕ) (hN : 0 < N) (lp rp : Point) :
    ∀ (obs : List FrameObservation) (lh rh : List Point),
      (∀ o ∈ obs, (o.left_eye = none ∧ o.right_eye = none) ∨
        (o.left_eye = some lp ∧ o.right_eye = some rp)) →
      (∀ q ∈ lh, q = lp) → (∀ q ∈ rh, q = rp) →
      ∀ d ∈ buildDispAux N (lh, rh) obs,
        d.left_displacement = 0 ∧ d.right_displacement = 0 := by
  intro obs
  induction obs with
  | nil => intro lh rh _ _ _ d hd; simp [buildDispAux] at hd
  | cons o os ih =>
      intro lh rh hobs hlh hrh d hd
      have htail : ∀ o2 ∈ os, (o2.left_eye = none ∧ o2.right_eye = none) ∨
          (o2.left_eye = some lp ∧ o2.right_eye = some rp) :=
        fun o2 h2 => hobs o2 (List.mem_cons_of_mem o h2)
      rcases hobs o (List.mem_cons_self o os) with ⟨h1, h2⟩ | ⟨h1, h2⟩
      · rw [buildDispAux] at hd
        simp only [h1, h2] at hd
        exact ih lh rh htail hlh hrh d hd
      · rw [buildDispAux] at hd
        simp only [h1, h2] at hd
        have hlh2 : ∀ q ∈ (lp :: lh).take N, q = lp := by
          intro q hq
          rcases List.mem_cons.mp (List.take_subset N _ hq) with rfl | hq2
          · rfl
          · exact hlh q hq2
        have hrh2 : ∀ q ∈ (rp :: rh).take N, q = rp := by
          intro q hq
          rcases List.mem_cons.mp (List.take_subset N _ hq) with rfl | hq2
          · rfl
          · exact hrh q hq2
        have hlne : (lp :: lh).take N ≠ [] := by
          cases N with
          | zero => omega
          | succ n => simp [List.take_succ_cons]
        have hrne : (rp :: rh).take N ≠ [] := by
          cases N with
          | zero => omega
          | succ n => simp [List.take_succ_cons]
        rcases List.mem_cons.mp hd with rfl | hd2
        · exact ⟨dispFrom_const_window lp _ hlne hlh2,
            dispFrom_const_window rp _ hrne hrh2⟩
        · exact ih _ _ htail hlh2 hrh2 d hd2

/-! ### Ordering lemmas: observations, displacement samples and
detection events are produced in nondecreasing timestamp order -/

/-- Observation timestamps are nondecreasing and bounded below by the
timestamp of the starting index. -/
theorem mkObsAux_sorted (fps : ℚ) (hfps : 0 < fps) (k : ℕ)
    (locate : α → Option (Point × Point)) :
    ∀ (fs : List α) (j : ℕ),
      (mkObsAux fps k locate j fs).Pairwise (fun a b => a.timestamp ≤ b.timestamp) ∧
      ∀ o ∈ mkObsAux fps k locate j fs, ((j * k : ℕ) : ℚ) / fps ≤ o.timestamp := by
  intro fs
  induction fs with
  | nil => intro j; simp [mkObsAux]
  | cons f fs ih =>
      intro j
      have hmono : ((j * k : ℕ) : ℚ) / fps ≤ (((j + 1) * k : ℕ) : ℚ) / fps := by
        apply (div_le_div_iff_of_pos_right hfps).mpr
        exact_mod_cast Nat.mul_le_mul (Nat.le_succ j) le_rfl
      obtain ⟨ihp, ihb⟩ := ih (j + 1)
      constructor
      · rw [mkObsAux]
        refine List.Pairwise.cons ?_ ihp
        intro b hb
        rw [obsOf_timestamp]
        exact le_trans hmono (ihb b hb)
      · intro o ho
        rw [mkObsAux] at ho
        rcases List.mem_cons.mp ho with rfl | ho2
        · rw [obsOf_timestamp]
        · exact le_trans hmono (ihb o ho2)

/-- The displacement builder preserves timestamp order: its output is
pairwise nondecreasing and every sample timestamp comes from an input
observation. -/
theorem buildDispAux_sorted (N : ℕ) :
    ∀ (obs : List FrameObservation) (lh rh : List Point),
      obs.Pairwise (fun a b => a.timestamp ≤ b.timestamp) →
      ((buildDispAux N (lh, rh) obs).Pairwise (fun a b => a.timestamp ≤ b.timestamp) ∧
       ∀ d ∈ buildDispAux N (lh, rh) obs, ∃ o ∈ obs, d.timestamp = o.timestamp) := by
  intro obs
  induction obs with
  | nil => intro lh rh _; simp [buildDispAux]
  | cons o os ih =>
      intro lh rh hpw
      obtain ⟨hhead, htail⟩ := List.pairwise_cons.mp hpw
      rcases hle : o.left_eye with _ | lp
      · rw [buildDispAux]
        simp only [hle]
        obtain ⟨ihp, ihm⟩ := ih lh rh htail
        exact ⟨ihp, fun d hd => by
          obtain ⟨o2, ho2, he⟩ := ihm d hd
          exact ⟨o2, List.mem_cons_of_mem o ho2, he⟩⟩
      · rcases hre : o.right_eye with _ | rp
        · rw [buildDispAux]
          simp only [hle, hre]
          obtain ⟨ihp, ihm⟩ := ih lh rh htail
          exact ⟨ihp, fun d hd => by
            obtain ⟨o2, ho2, he⟩ := ihm d hd
            exact ⟨o2, List.mem_cons_of_mem o ho2, he⟩⟩
        · rw [buildDispAux]
          simp only [hle, hre]
          obtain ⟨ihp, ihm⟩ := ih ((lp :: lh).take N) ((rp :: rh).take N) htail
          constructor
          · refine List.Pairwise.cons ?_ ihp
            intro d hd
            obtain ⟨o2, ho2, he⟩ := ihm d hd
            simpa [he] using hhead o2 ho2
          · intro d hd
            rcases List.mem_cons.mp hd with rfl | hd2
            · exact ⟨o, List.mem_cons_self o os, rfl⟩
            · obtain ⟨o2, ho2, he⟩ := ihm d hd2
              exact ⟨o2, List.mem_cons_of_mem o ho2, he⟩

/-- Joint invariant for the event detector: from a state whose
remembered samples respect the timestamp bounds, the emitted events
are pairwise nondecreasing in timestamp and bounded below by `t`. -/
theorem detectAux_sorted (cfg : EngineConfig) :
    ∀ (l : List DispSample),
      l.Pairwise (fun a b => a.timestamp ≤ b.timestamp) →
      ∀ (t : ℚ), (∀ b ∈ l, t ≤ b.timestamp) →
      ((∀ (run : List DispSample), (∀ a ∈ run, t ≤ a.timestamp) →
          (∀ a ∈ run, ∀ b ∈ l, a.timestamp ≤ b.timestamp) →
          (detectAux cfg (DetState.idle run) l).Pairwise
              (fun e f => e.timestamp ≤ f.timestamp) ∧
          ∀ e ∈ detectAux cfg (DetState.idle run) l, t ≤ e.timestamp) ∧
       (∀ (start peak : DispSample) (rel : ℕ), t ≤ start.timestamp →
          (∀ b ∈ l, start.timestamp ≤ b.timestamp) →
          (detectAux cfg (DetState.inEvent start peak rel) l).Pairwise
              (fun e f => e.timestamp ≤ f.timestamp) ∧
          ∀ e ∈ detectAux cfg (DetState.inEvent start peak rel) l,
            t ≤ e.timestamp)) := by
  intro l
  induction l with
  | nil =>
      intro _ t _
      constructor
      · intro run _ _
        simp [detectAux]
      · intro start peak rel ht _
        simp [detectAux, mkEvent, ht]
  | cons s l2 ih =>
      intro hpw t hbound
      obtain ⟨hhead, hpw2⟩ := List.pairwise_cons.mp hpw
      have hbound2 : ∀ b ∈ l2, t ≤ b.timestamp :=
        fun b hb => hbound b (List.mem_cons_of_mem s hb)
      constructor
      · intro run hrun_t hrun_le
        rw [detectAux]
        by_cases he : cfg.t_enter < asym s
        · rw [if_pos he]
          by_cases hs : cfg.min_sustain ≤ (run ++ [s]).length
          · rw [if_pos hs]
            have hstart_mem : (run ++ [s]).headD s ∈ run ++ [s] := by
              cases run <;> simp
            have ht_start : t ≤ ((run ++ [s]).headD s).timestamp := by
              rcases List.mem_append.mp hstart_mem with hm | hm
              · exact hrun_t _ hm
              · simp only [List.mem_singleton] at hm
                rw [hm]
                exact hbound s (List.mem_cons_self s l2)
            have hstart_le : ∀ b ∈ l2, ((run ++ [s]).headD s).timestamp ≤ b.timestamp := by
              intro b hb
              rcases List.mem_append.mp hstart_mem with hm | hm
              · exact hrun_le _ hm b (List.mem_cons_of_mem s hb)
              · simp only [List.mem_singleton] at hm
                rw [hm]
                exact hhead b hb
            exact (ih hpw2 t hbound2).2 _ _ 0 ht_start hstart_le
          · rw [if_neg hs]
            apply (ih hpw2 t hbound2).1 (run ++ [s])
            · intro a ha
              rcases List.mem_append.mp ha with hm | hm
              · exact hrun_t _ hm
              · simp only [List.mem_singleton] at hm
                rw [hm]
                exact hbound s (List.mem_cons_self s l2)
            · intro a ha b hb
              rcases List.mem_append.mp ha with hm | hm
              · exact hrun_le _ hm b (List.mem_cons_of_mem s hb)
              · simp only [List.mem_singleton] at hm
                rw [hm]
                exact hhead b hb
        · rw [if_neg he]
          apply (ih hpw2 t hbound2).1 []
          · intro a ha; simp at ha
          · intro a ha; simp at ha
      · intro start peak rel ht hstart_le
        have hstart_le2 : ∀ b ∈ l2, start.timestamp ≤ b.timestamp :=
          fun b hb => hstart_le b (List.mem_cons_of_mem s hb)
        rw [detectAux]
        by_cases hexit : asym s < cfg.t_exit
        · rw [if_pos hexit]
          by_cases hrel : cfg.min_release ≤ rel + 1
          · rw [if_pos hrel]
            have hrec := (ih hpw2 start.timestamp hstart_le2).1 []
              (fun a ha => by simp at ha) (fun a ha => by simp at ha)
            constructor
            · refine List.Pairwise.cons ?_ hrec.1
              intro e he2
              simpa [mkEvent] using hrec.2 e he2
            · intro e he2
              rcases List.mem_cons.mp he2 with rfl | he3
              · simpa [mkEvent] using ht
              · exact le_trans ht (hrec.2 e he3)
          · rw [if_neg hrel]
            exact (ih hpw2 t hbound2).2 start _ (rel + 1) ht hstart_le2
        · rw [if_neg hexit]
          exact (ih hpw2 t hbound2).2 start _ 0 ht hstart_le2

/-- The detector output on a nondecreasing stream is nondecreasing in
timestamp. -/
theorem detect_sorted (cfg : EngineConfig) (samples : List DispSample)
    (h : samples.Pairwise (fun a b => a.timestamp ≤ b.timestamp)) :
    (detect cfg samples).Pairwise (fun e f => e.timestamp ≤ f.timestamp) := by
  cases samples with
  | nil => simp [detect, detectAux]
  | cons s l =>
      have hbound : ∀ b ∈ s :: l, s.timestamp ≤ b.timestamp := by
        intro b hb
        rcases List.mem_cons.mp hb with rfl | hb2
        · exact le_rfl
        · exact (List.pairwise_cons.mp h).1 b hb2
      exact ((detectAux_sorted cfg (s :: l) h s.timestamp hbound).1 []
        (fun a ha => by simp at ha) (fun a ha => by simp at ha)).1

/-! ### Sustained-exceedance lemmas for the event detector -/

theorem hasStreak_cons (cfg : EngineConfig) (s : DispSample)
    (l : List DispSample) (h : HasStreak cfg l) : HasStreak cfg (s :: l) := by
  obtain ⟨pre, streak, post, hEq, hLen, hX⟩ := h
  exact ⟨s :: pre, streak, post, by rw [hEq]; simp, hLen, hX⟩

/-- Joint invariant for the event detector: every emitted event comes
either from the event currently open (in the `inEvent` state) or from
a streak of `min_sustain` consecutive exceedances in the remaining
input (together with the exceeding run remembered by the idle
state). -/
theorem detectAux_streak (cfg : EngineConfig) :
    ∀ (l : List DispSample),
      ((∀ (run : List DispSample), (∀ a ∈ run, cfg.t_enter < asym a) →
          run.length + 1 ≤ cfg.min_sustain →
          ∀ e ∈ detectAux cfg (DetState.idle run) l, HasStreak cfg (run ++ l)) ∧
       (∀ (start peak : DispSample) (rel : ℕ),
          ∀ e ∈ detectAux cfg (DetState.inEvent start peak rel) l,
            (∃ p, e = mkEvent start p) ∨ HasStreak cfg l)) := by
  intro l
  induction l with
  | nil =>
      constructor
      · intro run _ _ e he
        simp [detectAux] at he
      · intro start peak rel e he
        simp only [detectAux, List.mem_singleton] at he
        exact Or.inl ⟨peak, he⟩
  | cons s l2 ih =>
      constructor
      · intro run hrun hlen e he
        rw [detectAux] at he
        by_cases hx : cfg.t_enter < asym s
        · rw [if_pos hx] at he
          have hstreak_all : ∀ a ∈ run ++ [s], cfg.t_enter < asym a := by
            intro a ha
            rcases List.mem_append.mp ha with hm | hm
            · exact hrun _ hm
            · simp only [List.mem_singleton] at hm
              rw [hm]; exact hx
          by_cases hs : cfg.min_sustain ≤ (run ++ [s]).length
          · rw [if_pos hs] at he
            rcases (ih.2 _ _ 0 e he) with ⟨p, _⟩ | hstreak
            · refine ⟨[], run ++ [s], l2, by simp, ?_, hstreak_all⟩
              have h1 : (run ++ [s]).length = run.length + 1 := by simp
              omega
            · obtain ⟨pre, streak, post, hEq, hLen, hX⟩ := hstreak
              exact ⟨run ++ s :: pre, streak, post, by rw [hEq]; simp, hLen, hX⟩
          · rw [if_neg hs] at he
            have h2 : (run ++ [s]).length + 1 ≤ cfg.min_sustain := by
              simp only [List.length_append, List.length_singleton] at hs ⊢
              omega
            have := ih.1 (run ++ [s]) hstreak_all h2 e he
            obtain ⟨pre, streak, post, hEq, hLen, hX⟩ := this
            refine ⟨pre, streak, post, ?_, hLen, hX⟩
            rw [← hEq]
            simp
        · rw [if_neg hx] at he
          have := ih.1 [] (fun a ha => by simp at ha)
            (by simp only [List.length_nil]; omega) e he
          simp only [List.nil_append] at this
          have h3 : HasStreak cfg (s :: l2) := hasStreak_cons cfg s l2 this
          obtain ⟨pre, streak, post, hEq, hLen, hX⟩ := h3
          exact ⟨run ++ pre, streak, post, by rw [hEq]; simp, hLen, hX⟩
      · intro start peak rel e he
        rw [detectAux] at he
        by_cases hexit : asym s < cfg.t_exit
        · rw [if_pos hexit] at he
          by_cases hrel : cfg.min_release ≤ rel + 1
          · rw [if_pos hrel] at he
            rcases List.mem_cons.mp he with rfl | he2
            · exact Or.inl ⟨_, rfl⟩
            · rcases Nat.eq_zero_or_pos cfg.min_sustain with h0 | h0
              · exact Or.inr ⟨[], [], s :: l2, by simp, by simp [h0],
                  fun a ha => by simp at ha⟩
              · have := ih.1 [] (fun a ha => by simp at ha)
                  (by simp only [List.length_nil]; omega) e he2
                simp only [List.nil_append] at this
                exact Or.inr (hasStreak_cons cfg s l2 this)
          · rw [if_neg hrel] at he
            rcases ih.2 _ _ _ e he with hl | hr
            · exact Or.inl hl
            · exact Or.inr (hasStreak_cons cfg s l2 hr)
        · rw [if_neg hexit] at he
          rcases ih.2 _ _ _ e he with hl | hr
          · exact Or.inl hl
          · exact Or.inr (hasStreak_cons cfg s l2 hr)

/-! ## Claim theorems -/

/-- C1: the spec mandates an explicit, distinguishable failure outcome
(AnalysisTimeout / UpstreamUnavailable) with no fabricated result.
The code does the opposite: on a failed health check or an aborted
upload, `analyzeVideoWithAPI` stores the fabricated demo
`fallbackResults` as the displayed analysis, and the flash route
answers a failed upstream call with a fabricated success response. -/
theorem upload_and_flash_failures_fabricate_results :
    (analyzeVideoWithAPI UploadOutcome.healthCheckFailed).analysisResults =
      some (fallbackResults ("Server unavailable. Please try again in a few minutes.")) ∧
    (analyzeVideoWithAPI UploadOutcome.aborted).analysisResults =
      some (fallbackResults ("Analysis timed out. Server may be busy - please try again.")) ∧
    flashlightPOST true true UpstreamOutcome.failed (9/10) 0 =
      FlashRouteResponse.analysis true true false
        ("Normal pupil reflex - no leukocoria detected (demo mode)") (3/5) true := by
  refine ⟨rfl, rfl, ?_⟩
  norm_num [flashlightPOST]

/-- C2: the claim demands determinism with no randomness in the
result-producing code, but the fallback branch of the flash route
draws Math.random, so two runs on the identical failing request can
produce different responses. -/
theorem flashlight_response_randomness :
    flashlightPOST true true UpstreamOutcome.failed (1/10) (1/2) ≠
      flashlightPOST true true UpstreamOutcome.failed (1/2) (1/2) := by
  norm_num [flashlightPOST]

/-- C3 counterexample: the fallback result hard-coded in
`src/app/hooks/videorec.tsx` has face_detection_rate 95 while
frames_with_face divided by frames_analyzed is 19/20, so the rate
field is not the plain ratio the claim states. -/
theorem face_rate_not_plain_fraction :
    (fallbackResults ("Analysis failed. Please try again.")).analysis.face_detection_rate = 95 ∧
    ((fallbackResults ("Analysis failed. Please try again.")).analysis.frames_with_face : ℚ) /
      ((fallbackResults ("Analysis failed. Please try again.")).analysis.frames_analyzed : ℚ) =
      19/20 ∧
    (95 : ℚ) ≠ 19/20 := by
  refine ⟨rfl, by norm_num [fallbackResults], by norm_num⟩

/-- C3 amended: face_detection_rate is the ratio expressed as a
percentage, 100 × frames_with_face / frames_analyzed, rounded to one
decimal place; every hard-coded AnalysisResult in the client sources
satisfies this. -/
theorem face_rate_is_percentage :
    (∀ m : String, (fallbackResults m).analysis.face_detection_rate =
      round1 (100 * ((fallbackResults m).analysis.frames_with_face : ℚ) /
        ((fallbackResults m).analysis.frames_analyzed : ℚ))) ∧
    fallbackResults_p7a.analysis.face_detection_rate =
      round1 (100 * (fallbackResults_p7a.analysis.frames_with_face : ℚ) /
        (fallbackResults_p7a.analysis.frames_analyzed : ℚ)) ∧
    fallbackResults_p7b.analysis.face_detection_rate =
      round1 (100 * (fallbackResults_p7b.analysis.frames_with_face : ℚ) /
        (fallbackResults_p7b.analysis.frames_analyzed : ℚ)) ∧
    mockResults_p6.analysis.face_detection_rate =
      round1 (100 * (mockResults_p6.analysis.frames_with_face : ℚ) /
        (mockResults_p6.analysis.frames_analyzed : ℚ)) := by
  refine ⟨fun m => ?_, ?_, ?_, ?_⟩ <;>
    norm_num [fallbackResults, fallbackResults_p7a, fallbackResults_p7b,
      mockResults_p6, round1]

set_option maxRecDepth 8000 in
/-- C4: the engine scenario of 600 sampled frames, 570 with a face
found and zero sustained asymmetry, produces face_detection_rate 95.0,
zero lazy-eye detections, risk LOW and the recommendation
`no issues detected.` -/
theorem scenario_600_frames_570_faces :
    scenarioResult.analysis.frames_analyzed = 600 ∧
    scenarioResult.analysis.frames_with_face = 570 ∧
    scenarioResult.analysis.face_detection_rate = 95 ∧
    scenarioResult.analysis.lazy_eye_detections = 0 ∧
    scenarioResult.risk_assessment.level = RiskLevel.LOW ∧
    scenarioResult.risk_assessment.recommendation = "no issues detected." := by
  have hlen : scenarioFrames.length = 600 := by simp [scenarioFrames]
  have hk : sampleStride defaultCfg.max_frames scenarioFrames.length = 1 := by
    rw [hlen]; decide
  have hobs : obsOfVideo defaultCfg scenarioLocate 30 scenarioFrames =
      mkObsAux 30 1 scenarioLocate 0 scenarioFrames := by
    unfold obsOfVideo sampledOf
    rw [hk, stride_one]
  have hana : (obsOfVideo defaultCfg scenarioLocate 30 scenarioFrames).length = 600 := by
    rw [hobs, length_mkObsAux, hlen]
  have hwf : (obsOfVideo defaultCfg scenarioLocate 30 scenarioFrames).countP
      (·.face_found) = 570 := by
    rw [hobs, countP_mkObsAux]
    decide
  have hcases : ∀ o ∈ obsOfVideo defaultCfg scenarioLocate 30 scenarioFrames,
      (o.left_eye = none ∧ o.right_eye = none) ∨
      (o.left_eye = some ⟨10, 20⟩ ∧ o.right_eye = some ⟨40, 20⟩) := by
    intro o ho
    rw [hobs] at ho
    obtain ⟨j2, f, _, rfl⟩ := mkObsAux_mem 30 1 scenarioLocate scenarioFrames 0 o ho
    rcases hsl : scenarioLocate f with _ | p
    · left
      simp [obsOf, hsl]
    · have hp : p = (⟨10, 20⟩, ⟨40, 20⟩) := by
        revert hsl
        unfold scenarioLocate
        split
        · intro h; cases h
        · intro h; exact (Option.some.inj h).symm
      subst hp
      right
      simp [obsOf, hsl]
  have hzero : ∀ d ∈ samplesOfVideo defaultCfg scenarioLocate 30 scenarioFrames,
      d.left_displacement = 0 ∧ d.right_displacement = 0 := by
    intro d hd
    unfold samplesOfVideo at hd
    exact buildDispAux_const defaultCfg.baseline_window (by decide) ⟨10, 20⟩ ⟨40, 20⟩
      (obsOfVideo defaultCfg scenarioLocate 30 scenarioFrames) [] [] hcases
      (fun q hq => by simp at hq) (fun q hq => by simp at hq) d hd
  have hev : eventsOfVideo defaultCfg scenarioLocate 30 scenarioFrames = [] := by
    unfold eventsOfVideo
    apply detect_nil_of_le
    intro s hs
    obtain ⟨hl, hr⟩ := hzero s hs
    simp [asym, hl, hr, defaultCfg]
  have hrate : (100 : ℚ) * ((570 : ℕ) : ℚ) / ((600 : ℕ) : ℚ) = 95 := by norm_num
  refine ⟨?_, ?_, ?_, ?_, ?_, ?_⟩
  · show (obsOfVideo defaultCfg scenarioLocate 30 scenarioFrames).length = 600
    exact hana
  · show (obsOfVideo defaultCfg scenarioLocate 30 scenarioFrames).countP
      (·.face_found) = 570
    exact hwf
  · show 100 * ((obsOfVideo defaultCfg scenarioLocate 30 scenarioFrames).countP
        (·.face_found) : ℚ) /
      ((obsOfVideo defaultCfg scenarioLocate 30 scenarioFrames).length : ℚ) = 95
    rw [hwf, hana, hrate]
  · show (eventsOfVideo defaultCfg scenarioLocate 30 scenarioFrames).length = 0
    rw [hev]
    rfl
  · show (riskAggregator defaultCfg
        (eventsOfVideo defaultCfg scenarioLocate 30 scenarioFrames)
        (100 * ((obsOfVideo defaultCfg scenarioLocate 30 scenarioFrames).countP
          (·.face_found) : ℚ) /
          ((obsOfVideo defaultCfg scenarioLocate 30 scenarioFrames).length : ℚ))).level =
      RiskLevel.LOW
    rw [hev, hwf, hana, hrate]
    decide
  · show (riskAggregator defaultCfg
        (eventsOfVideo defaultCfg scenarioLocate 30 scenarioFrames)
        (100 * ((obsOfVideo defaultCfg scenarioLocate 30 scenarioFrames).countP
          (·.face_found) : ℚ) /
          ((obsOfVideo defaultCfg scenarioLocate 30 scenarioFrames).length : ℚ))).recommendation =
      "no issues detected."
    rw [hev, hwf, hana, hrate]
    decide

/-- C5: every analysis result of the modelled engine satisfies
0 ≤ frames_with_face ≤ frames_analyzed ≤ total_frames. -/
theorem analysis_counts_chain {α : Type} (cfg : EngineConfig)
    (locate : α → Option (Point × Point)) (fps duration : ℚ) (frames : List α) :
    0 ≤ (analyzeVideo cfg locate fps duration frames).analysis.frames_with_face ∧
    (analyzeVideo cfg locate fps duration frames).analysis.frames_with_face ≤
      (analyzeVideo cfg locate fps duration frames).analysis.frames_analyzed ∧
    (analyzeVideo cfg locate fps duration frames).analysis.frames_analyzed ≤
      (analyzeVideo cfg locate fps duration frames).video_info.total_frames := by
  refine ⟨Nat.zero_le _, ?_, ?_⟩
  · show (obsOfVideo cfg locate fps frames).countP (·.face_found) ≤
      (obsOfVideo cfg locate fps frames).length
    exact List.countP_le_length _
  · show (obsOfVideo cfg locate fps frames).length ≤ frames.length
    unfold obsOfVideo sampledOf
    rw [length_mkObsAux]
    exact stride_length_le _ _

/-- C6: for every analysis of the modelled engine (at a positive frame
rate), lazy_eye_detections equals the length of detection_events, and
detection_events is nondecreasing in timestamp. -/
theorem detections_count_matches_and_sorted {α : Type} (cfg : EngineConfig)
    (locate : α → Option (Point × Point)) (fps duration : ℚ) (frames : List α)
    (hfps : 0 < fps) :
    (analyzeVideo cfg locate fps duration frames).analysis.lazy_eye_detections =
      (analyzeVideo cfg locate fps duration frames).analysis.detection_events.length ∧
    (analyzeVideo cfg locate fps duration frames).analysis.detection_events.Pairwise
      (fun e f => e.timestamp ≤ f.timestamp) := by
  constructor
  · rfl
  · show (eventsOfVideo cfg locate fps frames).Pairwise
      (fun e f => e.timestamp ≤ f.timestamp)
    have hobs : (obsOfVideo cfg locate fps frames).Pairwise
        (fun a b => a.timestamp ≤ b.timestamp) := by
      unfold obsOfVideo
      exact (mkObsAux_sorted fps hfps (sampleStride cfg.max_frames frames.length)
        locate (sampledOf cfg frames) 0).1
    have hsamp : (samplesOfVideo cfg locate fps frames).Pairwise
        (fun a b => a.timestamp ≤ b.timestamp) := by
      unfold samplesOfVideo
      exact (buildDispAux_sorted cfg.baseline_window
        (obsOfVideo cfg locate fps frames) [] [] hobs).1
    unfold eventsOfVideo
    exact detect_sorted cfg _ hsamp

/-- C6 instance witness: the theorem applied to a concrete three-frame
video at 30 fps. -/
theorem detections_count_matches_and_sorted_inst :
    (0 : ℚ) < 30 ∧
    ((analyzeVideo defaultCfg (fun _ : ℕ => some (⟨0, 0⟩, ⟨0, 0⟩)) 30 1
        [0, 1, 2]).analysis.lazy_eye_detections =
      (analyzeVideo defaultCfg (fun _ : ℕ => some (⟨0, 0⟩, ⟨0, 0⟩)) 30 1
        [0, 1, 2]).analysis.detection_events.length ∧
     (analyzeVideo defaultCfg (fun _ : ℕ => some (⟨0, 0⟩, ⟨0, 0⟩)) 30 1
        [0, 1, 2]).analysis.detection_events.Pairwise
       (fun e f => e.timestamp ≤ f.timestamp)) :=
  ⟨by norm_num,
   detections_count_matches_and_sorted defaultCfg
     (fun _ : ℕ => some (⟨0, 0⟩, ⟨0, 0⟩)) 30 1 [0, 1, 2] (by norm_num)⟩

/-- C7: for every parsed flash-test request carrying a photo, the
endpoint responds with the success/result/message/confidence shape,
success is true, and result is true exactly when the response reports
no leukocoria. -/
theorem flashlight_response_shape (parseOk photo : Bool) (u : UpstreamOutcome)
    (rand1 rand2 : ℚ) (hp : parseOk = true) (hq : photo = true) :
    ∃ s res leuko m c fb, flashlightPOST parseOk photo u rand1 rand2 =
      FlashRouteResponse.analysis s res leuko m c fb ∧ s = true ∧ res = !leuko := by
  subst hp hq
  cases u with
  | ok leuko =>
      refine ⟨true, !leuko, leuko, _, 85/100, false, rfl, rfl, rfl⟩
  | failed =>
      refine ⟨true, decide (1/5 < rand1), !(decide (1/5 < rand1)), _,
        rand2 * (3/10) + 3/5, true, rfl, rfl, ?_⟩
      rw [Bool.not_not]

/-- C7 instance witness: the theorem applied to a parsed request with
a photo whose upstream detection reports no leukocoria. -/
theorem flashlight_response_shape_inst :
    (true = true) ∧ ∃ s res leuko m c fb,
      flashlightPOST true true (UpstreamOutcome.ok false) 0 0 =
        FlashRouteResponse.analysis s res leuko m c fb ∧ s = true ∧ res = !leuko :=
  ⟨rfl, flashlight_response_shape true true (UpstreamOutcome.ok false) 0 0 rfl rfl⟩

/-- C8: the detector emits no event when no sample strictly exceeds
T_enter (in particular when the asymmetry is exactly at the threshold,
however long), and every emitted event requires min_sustain
consecutive samples strictly above T_enter. -/
theorem no_event_without_sustained_exceedance (cfg : EngineConfig)
    (samples : List DispSample) (hms : 0 < cfg.min_sustain) :
    ((∀ s ∈ samples, asym s ≤ cfg.t_enter) → detect cfg samples = []) ∧
    (∀ e ∈ detect cfg samples, HasStreak cfg samples) := by
  constructor
  · exact detect_nil_of_le cfg samples
  · intro e he
    have := (detectAux_streak cfg samples).1 []
      (fun a ha => by simp at ha)
      (by simp only [List.length_nil]; omega) e he
    simpa using this

/-- C8 instance witness: the spec boundary case, asymmetry exactly at
T_enter = 25 for only 2 consecutive samples with min_sustain = 3,
produces no event. -/
theorem no_event_without_sustained_exceedance_inst :
    0 < defaultCfg.min_sustain ∧ detect defaultCfg jitterStream = [] :=
  ⟨by decide,
   (no_event_without_sustained_exceedance defaultCfg jitterStream (by decide)).1
     (by
       intro s hs
       rcases List.mem_cons.mp hs with rfl | hs2
       · norm_num [asym, defaultCfg]
       · rcases List.mem_cons.mp hs2 with rfl | hs3
         · norm_num [asym, defaultCfg]
         · simp at hs3)⟩

/-- C9: every failure mode of the client video-analysis call displays
results with risk level LOW and an empty detection_events list, and
the part_007 fallback results are likewise LOW with no events. -/
theorem failed_analysis_displays_low_risk :
    (∀ o : UploadOutcome, isFailureOutcome o = true →
      ∃ r, (analyzeVideoWithAPI o).analysisResults = some r ∧
        r.risk_assessment.level = RiskLevel.LOW ∧
        r.analysis.detection_events = []) ∧
    (fallbackResults_p7a.risk_assessment.level = RiskLevel.LOW ∧
      fallbackResults_p7a.analysis.detection_events = []) ∧
    (fallbackResults_p7b.risk_assessment.level = RiskLevel.LOW ∧
      fallbackResults_p7b.analysis.detection_events = []) := by
  refine ⟨?_, ⟨rfl, rfl⟩, ⟨rfl, rfl⟩⟩
  intro o ho
  cases o with
  | ok a => simp [isFailureOutcome] at ho
  | healthCheckFailed => exact ⟨_, rfl, rfl, rfl⟩
  | aborted => exact ⟨_, rfl, rfl, rfl⟩
  | httpStatus s => exact ⟨_, rfl, rfl, rfl⟩
  | apiReportedFailure m => exact ⟨_, rfl, rfl, rfl⟩
  | networkFailure => exact ⟨_, rfl, rfl, rfl⟩

/-- C9 instance witness: the theorem applied to the timeout failure. -/
theorem failed_analysis_displays_low_risk_inst :
    isFailureOutcome UploadOutcome.aborted = true ∧
    ∃ r, (analyzeVideoWithAPI UploadOutcome.aborted).analysisResults = some r ∧
      r.risk_assessment.level = RiskLevel.LOW ∧
      r.analysis.detection_events = [] :=
  ⟨rfl, failed_analysis_displays_low_risk.1 UploadOutcome.aborted rfl⟩

/-- C10: both cited getApiUrl functions return the fixed production
URL for every execution environment, so every upload goes to that
service. -/
theorem getApiUrl_constant :
    getApiUrl = "https://eyehacka.onrender.com" ∧
    (∀ (hasWindow : Bool) (hostname : String),
      getApiUrl_p7 hasWindow hostname = "https://eyehacka.onrender.com") ∧
    uploadUrl = "https://eyehacka.onrender.com/upload" := by
  refine ⟨rfl, ?_, by decide⟩
  intro hasWindow hostname
  unfold getApiUrl_p7
  split <;> rfl

end EyeHacka
